import Mathlib

/-!
Shallow embedding of the `maio.core` validation engine and list-query builder
(`maio/core/validators.py`, `maio/core/commands.py`, `maio/core/data.py`,
`maio/core/helpers.py`) in Lean 4.

Conventions of the embedding:
* Python runtime values are modelled by the inductive type `PValue`
  (`vNone` is Python `None`; `vList` models both `list` and `tuple`;
  `vDict` models string-keyed dicts as insertion-ordered association lists;
  `vErr` models the `ValErrorEntry` named tuple; `vBytes` models `bytes`).
* Python dicts are association lists in insertion order; item assignment is
  `dictSet` (overwrite in place when the key exists, append otherwise),
  matching CPython dict semantics.
* A validator unit (a bound `_FieldValidator` or a plain callable of the
  chain) is a Lean function `PValue → FunctionResult`; binding of the
  declared parameters (`_FieldValidator.call`) is ordinary partial
  application.
* Callables stored in data (filter converters, element parsers) are Lean
  functions carried inside the corresponding structures, exactly as the
  source stores Python callables in its named tuples.
-/

/-- Model of a Python runtime value as it flows through the validation and
filtering code. -/
inductive PValue where
  | vNone
  | vBool (b : Bool)
  | vInt (n : Int)
  | vStr (s : String)
  | vBytes (bs : List Nat)
  | vErr (code : Int) (message : String)
  | vList (xs : List PValue)
  | vDict (entries : List (String × PValue))

/-- `helpers.FunctionResult`: `class FunctionResult(NamedTuple): status: int;
result: Any`. -/
structure FunctionResult where
  status : Nat
  result : PValue

/-- `helpers.RESULT_OK = 1`. -/
def RESULT_OK : Nat := 1

/-- `helpers.RESULT_ERR = 0`. -/
def RESULT_ERR : Nat := 0

/-- Python truthiness (`bool(x)`) for the modelled values: `None`, `0`, `''`,
`False` and empty containers are falsy; a `ValErrorEntry` is a two-element
named tuple, hence always truthy. -/
def pyTruthy : PValue → Bool
  | .vNone => false
  | .vBool b => b
  | .vInt n => n != 0
  | .vStr s => s != ""
  | .vBytes bs => !bs.isEmpty
  | .vErr _ _ => true
  | .vList xs => !xs.isEmpty
  | .vDict d => !d.isEmpty

/-- Truthiness of an optional integer parameter (`if min_len and ...`):
Python `None` and `0` are both falsy. -/
def optNatTruthy : Option Nat → Bool
  | none => false
  | some n => n != 0

/-- Truthiness of an optional string parameter (`if ends_with and ...`):
Python `None` and `''` are both falsy. -/
def optStrTruthy : Option String → Bool
  | none => false
  | some s => s != ""

/-- Python dict item assignment `d[k] = v`: overwrite in place when the key
exists, append otherwise (CPython preserves insertion position on
overwrite). -/
def dictSet (d : List (String × PValue)) (k : String) (v : PValue) :
    List (String × PValue) :=
  if d.any (fun p => p.1 == k) then
    d.map (fun p => if p.1 == k then (k, v) else p)
  else d ++ [(k, v)]

/-- Key list of a modelled dict. -/
def keys (d : List (String × PValue)) : List String := d.map Prod.fst

/- -------------------------------------------------------------------------
helpers.py: `remove_tags(text) = html.escape(TAG_RE.sub('', text))` with
`TAG_RE = re.compile(r'(<!--.*?-->|<[^>]*>)')`.
------------------------------------------------------------------------- -/

/-- One character of `html.escape` (with the default `quote=True`): `&`, `<`,
`>`, `"` and the apostrophe are replaced by their entities.  Because the
ampersand substitution is performed first, the sequential `str.replace`
calls of `html.escape` act independently on each source character. -/
def escapeChar (c : Char) : List Char :=
  if c = '&' then "&amp;".data
  else if c = '<' then "&lt;".data
  else if c = '>' then "&gt;".data
  else if c = '"' then "&quot;".data
  else if c = '\'' then "&#x27;".data
  else [c]

/-- `html.escape` applied characterwise. -/
def htmlEscape (l : List Char) : List Char := (l.map escapeChar).flatten

/-- First match of `-->` in the regex alternative `<!--.*?-->` (non-greedy,
so the earliest occurrence); `.` does not cross a newline.  Returns the
remainder of the input after the match. -/
def findCommentEnd : List Char → Option (List Char)
  | '-' :: '-' :: '>' :: rest => some rest
  | '\n' :: _ => none
  | _ :: rest => findCommentEnd rest
  | [] => none

/-- Completion of the regex alternative `<[^>]*>` after the opening `<`:
everything up to the first `>` is consumed (`[^>]` accepts any other
character, newline included).  Returns the remainder after the `>`. -/
def findTagEnd : List Char → Option (List Char)
  | '>' :: rest => some rest
  | _ :: rest => findTagEnd rest
  | [] => none

/-- `TAG_RE.sub('', ·)`: leftmost, non-overlapping removal of HTML comments
and tags.  At each `<` the comment alternative `<!--.*?-->` is tried first,
then `<[^>]*>`; if neither matches, the `<` is kept literally.  The `fuel`
argument only bounds the recursion: every recursive call continues on a
strict suffix of the input, so `fuel = length` (as passed by `stripTags`)
is never exhausted. -/
def stripTagsFuel : Nat → List Char → List Char
  | 0, l => l
  | _ + 1, [] => []
  | fuel + 1, c :: rest =>
    if c = '<' then
      if rest.take 3 = ['!', '-', '-'] then
        match findCommentEnd (rest.drop 3) with
        | some after => stripTagsFuel fuel after
        | none =>
          match findTagEnd rest with
          | some after => stripTagsFuel fuel after
          | none => c :: stripTagsFuel fuel rest
      else
        match findTagEnd rest with
        | some after => stripTagsFuel fuel after
        | none => c :: stripTagsFuel fuel rest
    else c :: stripTagsFuel fuel rest

/-- `TAG_RE.sub('', ·)` on a character list. -/
def stripTags (l : List Char) : List Char := stripTagsFuel l.length l

/-- `helpers.remove_tags`: empty (falsy) input yields `''`; otherwise the
tag-stripped text is HTML-escaped.  (The `not isinstance(text, str)` guard
is vacuous here because the argument type is `String`.) -/
def remove_tags (s : String) : String :=
  if s = "" then "" else ⟨htmlEscape (stripTags s.data)⟩

/- -------------------------------------------------------------------------
validators.py: individual validator units.
------------------------------------------------------------------------- -/

/-- `validators._val_string`: `None` passes through; a non-string value is a
type error; then min-length, max-length, `ends_with`, `starts_with` checks
in that order; finally the optional `strip_html` transform. -/
def _val_string (value : PValue) (min_len max_len : Option Nat)
    (ends_with starts_with : Option String) (strip_html : Bool) :
    FunctionResult :=
  match value with
  | .vNone => ⟨RESULT_OK, .vNone⟩
  | .vStr s =>
    if optNatTruthy min_len && decide (s.length < min_len.getD 0) then
      ⟨RESULT_ERR, .vErr 11 ("Value is too short. Min length " ++
        toString (min_len.getD 0))⟩
    else if optNatTruthy max_len && decide (s.length > max_len.getD 0) then
      ⟨RESULT_ERR, .vErr 12 ("Value is too long. Max length " ++
        toString (max_len.getD 0))⟩
    else if optStrTruthy ends_with && !(s.endsWith (ends_with.getD "")) then
      ⟨RESULT_ERR, .vErr 13 ("Incorrect value. Value not ends with " ++
        ends_with.getD "")⟩
    else if optStrTruthy starts_with &&
        !(s.startsWith (starts_with.getD "")) then
      ⟨RESULT_ERR, .vErr 14 ("Incorrect value. Value not starts with " ++
        starts_with.getD "")⟩
    else if strip_html then ⟨RESULT_OK, .vStr (remove_tags s)⟩
    else ⟨RESULT_OK, .vStr s⟩
  | _ => ⟨RESULT_ERR, .vErr 10 "Value not a string"⟩

/-- The chain unit `Val.string(strip_html=True)` (all other parameters left
at their defaults), as stored in a validation schema. -/
def Val_string_strip (v : PValue) : FunctionResult :=
  _val_string v none none none none true

/-- Element loop of `validators._val_list_of_items`: applies `parser(e, None)`
to each element; the first `None` parse aborts with its position (`inl i`),
otherwise the collected outputs are returned (`inr out`). -/
def parseItems (parser : PValue → PValue) : List PValue → Nat →
    Sum Nat (List PValue)
  | [], _ => .inr []
  | e :: rest, i =>
    match parser e with
    | .vNone => .inl i
    | v =>
      match parseItems parser rest (i + 1) with
      | .inl j => .inl j
      | .inr out => .inr (v :: out)

/-- `validators._val_list_of_items`.  `parser` is the bound element parser
with its `default=None` argument already applied.  Note the `max_length`
branch of the source: it returns `FunctionResult(RESULT_OK, ValErrorEntry(
_ERR_LIST_TOO_BIG, ...))` — a success-tagged result carrying an error
payload. -/
def _val_list_of_items (value : PValue) (parser : PValue → PValue)
    (min_length max_length : Option Nat) : FunctionResult :=
  match value with
  | .vNone => ⟨RESULT_OK, .vNone⟩
  | .vList items =>
    if optNatTruthy min_length && decide (min_length.getD 0 > items.length) then
      ⟨RESULT_ERR, .vErr 60 ("List too short. Required at least " ++
        toString (min_length.getD 0) ++ " elements")⟩
    else
      match parseItems parser items 0 with
      | .inl i => ⟨RESULT_ERR, .vErr 62 ("Invalid value at position " ++
          toString i)⟩
      | .inr out =>
        if optNatTruthy max_length && decide (out.length > max_length.getD 0) then
          ⟨RESULT_OK, .vErr 61 ("List too long. Expected maximum " ++
            toString (max_length.getD 0) ++ " elements")⟩
        else ⟨RESULT_OK, .vList out⟩
  | _ => ⟨RESULT_ERR, .vErr 7 "Expected list"⟩

/-- Decimal digit-run value, `none` when the run is empty or contains a
non-digit. -/
def digitsToNat (l : List Char) : Option Nat :=
  if l ≠ [] && l.all Char.isDigit then
    some (l.foldl (fun acc c => acc * 10 + (c.toNat - 48)) 0)
  else none

/-- Python `int(s)` on a string: surrounding whitespace is ignored, an
optional single sign precedes a non-empty digit run; anything else raises
(modelled as `none`). -/
def pyStrToInt (s : String) : Option Int :=
  match s.trim.data with
  | '-' :: rest => (digitsToNat rest).map (fun n => -(n : Int))
  | '+' :: rest => (digitsToNat rest).map (fun n => (n : Int))
  | t => (digitsToNat t).map (fun n => (n : Int))

/-- `helpers.parse_int` with `default=None`, as used by
`Val.list_of_numbers(integer=True)`: `int()` succeeds on ints and booleans
and on decimal string literals, and returns the default (`None`, i.e.
`vNone`) otherwise. -/
def parse_int_p : PValue → PValue
  | .vInt n => .vInt n
  | .vBool b => .vInt (if b then 1 else 0)
  | .vStr s =>
    match pyStrToInt s with
    | some n => .vInt n
    | none => .vNone
  | _ => .vNone

/-- `validators._just_fail`: always fails with `ValErrorEntry(0, "Fail")`. -/
def _just_fail (_ : PValue) : FunctionResult :=
  ⟨RESULT_ERR, .vErr 0 "Fail"⟩

/-- `validators._just_pass`: always succeeds with `None`. -/
def _just_pass (_ : PValue) : FunctionResult :=
  ⟨RESULT_OK, .vNone⟩

/- -------------------------------------------------------------------------
validators.py: image signature checks (PNG / GIF) and the dispatch of
`_ImageValidator.validate` on the format-specific result.
------------------------------------------------------------------------- -/

/-- `validators._PNG_HEADER`. -/
def _PNG_HEADER : List Nat := [0x89, 0x50, 0x4E, 0x47, 0x0D, 0x0A, 0x1A, 0x0A]

/-- `validators._PNG_TRAILER`. -/
def _PNG_TRAILER : List Nat := [0x49, 0x45, 0x4E, 0x44, 0xAE, 0x42, 0x60, 0x82]

/-- `validators.val_png`.  The `Option` result models the Python return
value: every path of `val_png` returns a `FunctionResult` explicitly, so the
result is always `some`. -/
def val_png (contents : List Nat) : Option FunctionResult :=
  if ¬ _PNG_HEADER.isPrefixOf contents then
    some ⟨RESULT_ERR, .vErr 103 "Invalid PNG file"⟩
  else if ¬ _PNG_TRAILER.isSuffixOf contents then
    some ⟨RESULT_ERR, .vErr 103 "Invalid PNG file"⟩
  else some ⟨RESULT_OK, .vNone⟩

/-- `validators._GIF_HEADER`. -/
def _GIF_HEADER : List Nat := [0x47, 0x49, 0x46, 0x38]

/-- `validators._GIF_TRAILER`. -/
def _GIF_TRAILER : List Nat := [0x00, 0x3B]

/-- `validators.val_gif`.  When header, trailer and version byte all pass,
the Python function falls off the end of its body and implicitly returns
`None`, modelled as `none` — unlike `val_png`/`val_jpg`, no success
`FunctionResult` is produced.  (The version-byte reads `contents[4]`,
`contents[5]` are modelled with `getD`; the header/trailer guards guarantee
a length of at least 6 on that path, so the defaults are never used.) -/
def val_gif (contents : List Nat) : Option FunctionResult :=
  if ¬ _GIF_HEADER.isPrefixOf contents then
    some ⟨RESULT_ERR, .vErr 102 "Invalid GIF file"⟩
  else if ¬ _GIF_TRAILER.isSuffixOf contents then
    some ⟨RESULT_ERR, .vErr 102 "Invalid GIF file"⟩
  else if (contents.getD 4 0 ≠ 0x37 ∧ contents.getD 4 0 ≠ 0x39) ∨
      contents.getD 5 0 ≠ 0x61 then
    some ⟨RESULT_ERR, .vErr 102 "Invalid GIF file"⟩
  else none

/-- Final dispatch of `_ImageValidator.validate` (the lines
`result = val(image_bytes); if result.status == RESULT_OK: ...`): the chosen
format check is run on the decoded bytes; a success status is repackaged as
an `Image` named tuple, a failure is returned as-is.  When the format check
returns Python `None`, the attribute access `result.status` raises
`AttributeError` — modelled by propagating `none`. -/
def image_check_dispatch (val : List Nat → Option FunctionResult)
    (image_bytes : List Nat) (img_type : String) : Option FunctionResult :=
  match val image_bytes with
  | some r =>
    if r.status = RESULT_OK then
      some ⟨RESULT_OK, .vDict [("img_type", .vStr img_type),
        ("img_contents", .vBytes image_bytes)]⟩
    else some r
  | none => none

/- -------------------------------------------------------------------------
validators.py: ValidationResult and the SimpleValidator engine.
------------------------------------------------------------------------- -/

/-- `validators.ValidationResult`: accumulated accepted values (`_results`)
and per-field errors (`_errors`), both string-keyed dicts. -/
structure ValidationResult where
  results : List (String × PValue)
  errors : List (String × PValue)

/-- `ValidationResult()` constructor: both dicts empty. -/
def ValidationResult.empty : ValidationResult := ⟨[], []⟩

/-- `ValidationResult.add_field`. -/
def add_field (r : ValidationResult) (field : String) (value : PValue) :
    ValidationResult :=
  { r with results := dictSet r.results field value }

/-- `ValidationResult.add_field_error`: records the raw value among the
results and the error in the error dict. -/
def add_field_error (r : ValidationResult) (field : String) (value : PValue)
    (error : PValue) : ValidationResult :=
  let r := add_field r field value
  { r with errors := dictSet r.errors field error }

/-- `ValidationResult.has_errors`: the source is `any(self._errors)`, which
iterates the KEYS of the error dict and tests their truthiness — for
string keys, non-emptiness of the key. -/
def has_errors (r : ValidationResult) : Bool :=
  r.errors.any (fun p => p.1 != "")

/-- One call against a `ValidationResult` (used to state the invariant over
arbitrary call sequences). -/
inductive VROp where
  | field (f : String) (v : PValue)
  | fieldError (f : String) (v : PValue) (e : PValue)

/-- Key of a recording call. -/
def VROp.key : VROp → String
  | .field f _ => f
  | .fieldError f _ _ => f

/-- Replay of a sequence of `add_field` / `add_field_error` calls. -/
def applyOps (ops : List VROp) (r : ValidationResult) : ValidationResult :=
  ops.foldl (fun r op =>
    match op with
    | .field f v => add_field r f v
    | .fieldError f v e => add_field_error r f v e) r

/-- Conversion of an appended error in `SimpleValidator._validate_field`:
a `ValErrorEntry` is flattened to a `{'code': ..., 'message': ...}` dict by
`_val_err_dict`; any other error payload is appended as-is. -/
def recErr : PValue → PValue
  | .vErr c m => .vDict [("code", .vInt c), ("message", .vStr m)]
  | e => e

/-- The loop of `SimpleValidator._validate_field` with its mutable state
`(check_status, errors, value)` made explicit.  Each chain unit is invoked
on the current value; on failure `check_status` is cleared and the error
appended, but the loop CONTINUES with the remaining units; on success the
value is replaced by the unit's result.  (The two `raise ValueError`
branches for a chain entry that is neither a validator nor a callable, or
that does not return a `FunctionResult`, are unrepresentable here: every
unit is a Lean function returning `FunctionResult`.) -/
def _validate_field_loop (check : Bool) (errors : List PValue)
    (value : PValue) : List (PValue → FunctionResult) →
    Bool × List PValue × PValue
  | [] => (check, errors, value)
  | v :: rest =>
    let result := v value
    if result.status ≠ RESULT_OK then
      _validate_field_loop false (errors ++ [recErr result.result]) value rest
    else
      _validate_field_loop check errors result.result rest

/-- `SimpleValidator._validate_field`. -/
def _validate_field (value : PValue)
    (validators : List (PValue → FunctionResult)) : FunctionResult :=
  match _validate_field_loop true [] value validators with
  | (check, errors, value) =>
    if check then ⟨RESULT_OK, value⟩ else ⟨RESULT_ERR, .vList errors⟩

/-- Characterization of the errors collected by the `_validate_field` loop:
one converted entry per failing unit, in chain order, the value being
threaded through the succeeding units only. -/
def chainErrs (value : PValue) : List (PValue → FunctionResult) →
    List PValue
  | [] => []
  | v :: rest =>
    let result := v value
    if result.status ≠ RESULT_OK then recErr result.result :: chainErrs value rest
    else chainErrs result.result rest

/-- Characterization of the value threaded by the `_validate_field` loop. -/
def chainVal (value : PValue) : List (PValue → FunctionResult) → PValue
  | [] => value
  | v :: rest =>
    let result := v value
    if result.status ≠ RESULT_OK then chainVal value rest
    else chainVal result.result rest

/-- A validation schema: field key paired with its ordered validator chain
(`Dict[str, List/Tuple]` in the source, iterated in insertion order). -/
abbrev Schema := List (String × List (PValue → FunctionResult))

/-- Body of the loop of `SimpleValidator._va`.  The source iterates
`validators.keys()` and re-tests `if field in validators` — a test that is
always true on that iteration, making the `else: res.add_field(field,
value)` pass-through branch unreachable; it is kept verbatim here. -/
def _va_step (validators : Schema) (getter : String → PValue)
    (res : ValidationResult)
    (fv : String × List (PValue → FunctionResult)) : ValidationResult :=
  let field := fv.1
  let value := getter field
  if validators.any (fun p => p.1 == field) then
    let fr := _validate_field value fv.2
    if fr.status = RESULT_OK then add_field res field fr.result
    else add_field_error res field value fr.result
  else add_field res field value

/-- `SimpleValidator._va`. -/
def _va (validators : Schema) (getter : String → PValue) :
    ValidationResult :=
  validators.foldl (_va_step validators getter) ValidationResult.empty

/-- `SimpleValidator.validate` on a plain mapping: the getter is
`lambda k: data.get(k)` (absent key reads as `None`). -/
def validate_dict (data : List (String × PValue)) (validators : Schema) :
    ValidationResult :=
  _va validators (fun k => (data.lookup k).getD .vNone)

/-- A structured value object (`data.VO`): its declared `__slots__` and the
current attribute values.  Reading an attribute of a slot that is not in
`vals` is modelled as `None` (the `VO.from_dict` constructor initializes
every slot, with `None` as the absent default). -/
structure VOObj where
  slots : List String
  vals : List (String × PValue)

/-- `VO.update_object`: for each declared slot present in `changes`, the
attribute is overwritten with the accepted value. -/
def update_object (obj : VOObj) (changes : List (String × PValue)) : VOObj :=
  ⟨obj.slots,
    obj.slots.foldl (fun vals key =>
      match changes.lookup key with
      | some v => dictSet vals key v
      | none => vals) obj.vals⟩

/-- `SimpleValidator.validate` on a `VO` input: the getter is
`lambda k: getattr(data, k)`, and the object is patched in place via
`update_object` only when `has_errors()` is false.  The (possibly updated)
object is returned alongside the `ValidationResult` to make the in-place
mutation observable. -/
def validate_vo (data : VOObj) (validators : Schema) :
    VOObj × ValidationResult :=
  let val_res := _va validators (fun k => (data.vals.lookup k).getD .vNone)
  if has_errors val_res then (data, val_res)
  else (update_object data val_res.results, val_res)

/- -------------------------------------------------------------------------
commands.py: declarative filters and the ListBuilder facets.
------------------------------------------------------------------------- -/

/-- The `field_mapping` member of `commands.FieldFilter`: a plain physical
field name (`str`), a `FieldMapping` (rename plus optional value
converter), or a `FieldSearch` (multi-field OR search with a converter). -/
inductive FieldMappingSpec where
  | direct (field : String)
  | mapping (field : String) (converter : PValue → PValue)
  | search (fields : List String) (converter : PValue → PValue)

/-- `commands.FieldFilter`.  `field_type` stands for the scalar-coercion
parser selected from `_FIELD_TYPE_MAPPING` at the declared Python type
(`parse_bool` / `parse_int` / `parse_float` / `parse_date_to_unix_ts` /
`parse_uuid`, each applied as `converter(value, default)`); it is `none`
when no type is declared or the declared type has no mapping entry. -/
structure FieldFilter where
  field_mapping : FieldMappingSpec
  field_type : Option (PValue → PValue → PValue) := none
  default : PValue := PValue.vNone
  from_query : Bool := true

/-- `ListBuilder._str_filter`: a `None` computed value stores the declared
default under the physical field name; otherwise the value (optionally put
through the declared converter) is stored. -/
def _str_filter (filtering : List (String × PValue)) (db_field : String)
    (field_val : PValue) (db_conv : Option (PValue → PValue))
    (default : PValue) : List (String × PValue) :=
  match field_val with
  | .vNone => dictSet filtering db_field default
  | _ =>
    match db_conv with
    | some conv => dictSet filtering db_field (conv field_val)
    | none => dictSet filtering db_field field_val

/-- `ListBuilder._search_filtering`: a `None` value emits no clause at all;
otherwise every declared physical field is matched against the same value
inside a single `$or` clause. -/
def _search_filtering (filtering : List (String × PValue))
    (fields : List String) (value : PValue) : List (String × PValue) :=
  match value with
  | .vNone => filtering
  | _ =>
    dictSet filtering "$or"
      (.vList [.vDict (fields.foldl (fun d f => dictSet d f value) [])])

/-- Body of the loop of `ListBuilder._process_filters`: the walk is over the
DECLARED filter map; a declared field is honored only when
`(not only_query or v.from_query) and field in data`.  `memData` and
`mapData` model `field in data` and `mapper(data, field)` for the caller's
input. -/
def _pf_step (memData : String → Bool) (mapData : String → PValue)
    (only_query : Bool) (filtering : List (String × PValue))
    (fv : String × FieldFilter) : List (String × PValue) :=
  let field := fv.1
  let v := fv.2
  if (!only_query || v.from_query) && memData field then
    let field_val :=
      match v.field_type with
      | none => mapData field
      | some converter => converter (mapData field) v.default
    match v.field_mapping with
    | .direct db => _str_filter filtering db field_val none v.default
    | .mapping db conv => _str_filter filtering db field_val (some conv) v.default
    | .search fs conv =>
      _search_filtering filtering fs
        (if pyTruthy field_val then conv field_val else v.default)
  else filtering

/-- `ListBuilder._process_filters`: early return when the resource declares
no filters or the caller's data is falsy (empty); otherwise the declared
map is walked and `self._filtering` updated in place. -/
def _process_filters (c_filters : List (String × FieldFilter))
    (memData : String → Bool) (mapData : String → PValue)
    (only_query : Bool) (dataTruthy : Bool)
    (filtering : List (String × PValue)) : List (String × PValue) :=
  if c_filters.isEmpty || !dataTruthy then filtering
  else c_filters.foldl (_pf_step memData mapData only_query) filtering

/-- `ListBuilder.with_query`: raw query data maps each key to the list of
byte-string values supplied for it; the mapper is
`lambda x, y: x[y][-1].decode('utf-8')` (last value, decoded — decoding is
the identity on the already-textual model), and `only_query=True`. -/
def with_query (c_filters : List (String × FieldFilter))
    (query_data : List (String × List String))
    (filtering : List (String × PValue)) : List (String × PValue) :=
  _process_filters c_filters
    (fun f => (query_data.lookup f).isSome)
    (fun f => .vStr (((query_data.lookup f).getD []).getLastD ""))
    true (!query_data.isEmpty) filtering

/-- `commands.ListPagination`. -/
structure ListPagination where
  limit : Int
  offset : Int
  deriving DecidableEq

/-- A `page` / `limit` argument of `with_pagination`: absent (`None`), an
int, or a raw string. -/
inductive PyArg where
  | none
  | int (n : Int)
  | str (s : String)

/-- Python truthiness of a `with_pagination` argument. -/
def pyArgTruthy : PyArg → Bool
  | .none => false
  | .int n => n != 0
  | .str s => s != ""

/-- The `page` preprocessing of `with_pagination`: `if not page: page = 0
elif isinstance(page, str): page = parse_int(page, 1)`. -/
def normPage (page : PyArg) : Int :=
  if !pyArgTruthy page then 0
  else
    match page with
    | .str s => (pyStrToInt s).getD 1
    | .int n => n
    | .none => 0

/-- The `limit` preprocessing of `with_pagination`: `if not limit: limit =
per_page elif isinstance(limit, str): limit = parse_int(limit, per_page)`. -/
def normLimit (limit : PyArg) (per_page : Int) : Int :=
  if !pyArgTruthy limit then per_page
  else
    match limit with
    | .str s => (pyStrToInt s).getD per_page
    | .int n => n
    | .none => per_page

/-- `ListBuilder.with_pagination`: the normalized limit is clamped by
`min(max_per_page, max(1, limit))` and the offset is
`limit * (max(1, page) - 1)`. -/
def with_pagination (page limit : PyArg) (per_page max_per_page : Int) :
    ListPagination :=
  let l := min max_per_page (max 1 (normLimit limit per_page))
  ⟨l, l * (max 1 (normPage page) - 1)⟩

/-- `AbstractListCommand.execute_with_count`, parameterized by the page
`result` fetched by `execute`, the builder's pagination facet and the value
a real `repo.count(...)` call would return.  The boolean of the returned
triple records whether the real count was issued (the `await
cls.get_repo_clazz().count(...)` branch) rather than the in-memory length
being reused. -/
def execute_with_count (result : List PValue)
    (pagination : Option ListPagination) (repo_count : Int) :
    List PValue × Int × Bool :=
  let result_len : Int := result.length
  if result_len > 0 then
    match pagination with
    | some p =>
      if p.offset ≠ 0 ∨ result_len ≥ p.limit then (result, repo_count, true)
      else (result, result_len, false)
    | none => (result, result_len, false)
  else (result, 0, false)


/- -------------------------------------------------------------------------
Helper lemmas about dict updates and the engine's folds.
------------------------------------------------------------------------- -/

theorem mem_keys_dictSet_self (d : List (String × PValue)) (k : String)
    (v : PValue) : k ∈ keys (dictSet d k v) := by
  unfold dictSet keys
  split
  · next h =>
    obtain ⟨p, hp, hpk⟩ := List.any_eq_true.mp h
    refine List.mem_map.mpr ⟨(k, v), List.mem_map.mpr ⟨p, hp, ?_⟩, rfl⟩
    simp [hpk]
  · simp

theorem mem_keys_dictSet_of_mem (d : List (String × PValue)) (k : String)
    (v : PValue) (q : String) (hq : q ∈ keys d) :
    q ∈ keys (dictSet d k v) := by
  unfold dictSet keys
  obtain ⟨p, hp, hpq⟩ := List.mem_map.mp hq
  split
  · refine List.mem_map.mpr ⟨if p.1 == k then (k, v) else p,
      List.mem_map.mpr ⟨p, hp, rfl⟩, ?_⟩
    by_cases hk : p.1 == k
    · rw [if_pos hk]
      have hpk : p.1 = k := eq_of_beq hk
      simp only [← hpq, ← hpk]
    · rw [if_neg hk]
      exact hpq
  · exact List.mem_map.mpr ⟨p, List.mem_append_left _ hp, hpq⟩

theorem mem_keys_of_dictSet (d : List (String × PValue)) (k : String)
    (v : PValue) (q : String) (hq : q ∈ keys (dictSet d k v)) :
    q = k ∨ q ∈ keys d := by
  unfold dictSet keys at hq
  revert hq
  split
  · intro hq
    obtain ⟨p, hp, hpq⟩ := List.mem_map.mp hq
    obtain ⟨r, hr, hrp⟩ := List.mem_map.mp hp
    by_cases hk : r.1 == k
    · rw [if_pos hk] at hrp
      left; rw [← hrp] at hpq; exact hpq.symm
    · rw [if_neg hk] at hrp
      right; rw [← hrp] at hpq
      exact List.mem_map.mpr ⟨r, hr, hpq⟩
  · intro hq
    obtain ⟨p, hp, hpq⟩ := List.mem_map.mp hq
    rcases List.mem_append.mp hp with hl | hr
    · exact Or.inr (List.mem_map.mpr ⟨p, hl, hpq⟩)
    · left
      have hpkv : p = (k, v) := by simpa using hr
      rw [hpkv] at hpq
      exact hpq.symm

theorem va_step_records (validators : Schema) (getter : String → PValue)
    (res : ValidationResult)
    (fv : String × List (PValue → FunctionResult)) :
    fv.1 ∈ keys ((_va_step validators getter res fv).results) := by
  simp only [_va_step, add_field, add_field_error]
  split
  · split
    · exact mem_keys_dictSet_self _ _ _
    · exact mem_keys_dictSet_self _ _ _
  · exact mem_keys_dictSet_self _ _ _

theorem va_step_preserves (validators : Schema) (getter : String → PValue)
    (res : ValidationResult)
    (fv : String × List (PValue → FunctionResult)) (k : String)
    (hk : k ∈ keys res.results) :
    k ∈ keys ((_va_step validators getter res fv).results) := by
  simp only [_va_step, add_field, add_field_error]
  split
  · split
    · exact mem_keys_dictSet_of_mem _ _ _ _ hk
    · exact mem_keys_dictSet_of_mem _ _ _ _ hk
  · exact mem_keys_dictSet_of_mem _ _ _ _ hk

theorem va_foldl_preserves (validators : Schema) (getter : String → PValue)
    (l : List (String × List (PValue → FunctionResult))) :
    ∀ (res : ValidationResult) (k : String), k ∈ keys res.results →
      k ∈ keys ((l.foldl (_va_step validators getter) res).results) := by
  induction l with
  | nil =>
    intro res k hk
    simpa only [List.foldl_nil] using hk
  | cons q rest ih =>
    intro res k hk
    simp only [List.foldl_cons]
    exact ih _ k (va_step_preserves validators getter res q k hk)

theorem va_foldl_records (validators : Schema) (getter : String → PValue)
    (l : List (String × List (PValue → FunctionResult))) :
    ∀ (res : ValidationResult) (p), p ∈ l →
      p.1 ∈ keys ((l.foldl (_va_step validators getter) res).results) := by
  induction l with
  | nil => simp
  | cons q rest ih =>
    intro res p hp
    simp only [List.foldl_cons]
    rcases List.mem_cons.mp hp with rfl | hp
    · exact va_foldl_preserves validators getter rest _ p.1
        (va_step_records validators getter res p)
    · exact ih _ p hp

theorem va_step_results_sub (validators : Schema) (getter : String → PValue)
    (res : ValidationResult)
    (fv : String × List (PValue → FunctionResult)) (k : String)
    (hk : k ∈ keys ((_va_step validators getter res fv).results)) :
    k = fv.1 ∨ k ∈ keys res.results := by
  simp only [_va_step, add_field, add_field_error] at hk
  revert hk
  split
  · split
    · exact fun hk => mem_keys_of_dictSet _ _ _ _ hk
    · exact fun hk => mem_keys_of_dictSet _ _ _ _ hk
  · exact fun hk => mem_keys_of_dictSet _ _ _ _ hk

theorem va_step_errors_sub (validators : Schema) (getter : String → PValue)
    (res : ValidationResult)
    (fv : String × List (PValue → FunctionResult)) (k : String)
    (hk : k ∈ keys ((_va_step validators getter res fv).errors)) :
    k = fv.1 ∨ k ∈ keys res.errors := by
  simp only [_va_step, add_field, add_field_error] at hk
  revert hk
  split
  · split
    · exact fun hk => Or.inr hk
    · exact fun hk => mem_keys_of_dictSet _ _ _ _ hk
  · exact fun hk => Or.inr hk

theorem va_foldl_results_sub (validators : Schema) (getter : String → PValue)
    (l : List (String × List (PValue → FunctionResult))) :
    ∀ (res : ValidationResult) (k : String),
      k ∈ keys ((l.foldl (_va_step validators getter) res).results) →
      k ∈ keys res.results ∨ k ∈ l.map Prod.fst := by
  induction l with
  | nil =>
    intro res k hk
    simp only [List.foldl_nil] at hk
    exact Or.inl hk
  | cons q rest ih =>
    intro res k hk
    simp only [List.foldl_cons] at hk
    rcases ih _ k hk with h | h
    · rcases va_step_results_sub validators getter res q k h with rfl | h
      · simp
      · exact Or.inl h
    · simp [h]

theorem va_foldl_errors_sub (validators : Schema) (getter : String → PValue)
    (l : List (String × List (PValue → FunctionResult))) :
    ∀ (res : ValidationResult) (k : String),
      k ∈ keys ((l.foldl (_va_step validators getter) res).errors) →
      k ∈ keys res.errors ∨ k ∈ l.map Prod.fst := by
  induction l with
  | nil =>
    intro res k hk
    simp only [List.foldl_nil] at hk
    exact Or.inl hk
  | cons q rest ih =>
    intro res k hk
    simp only [List.foldl_cons] at hk
    rcases ih _ k hk with h | h
    · rcases va_step_errors_sub validators getter res q k h with rfl | h
      · simp
      · exact Or.inl h
    · simp [h]

theorem validate_field_loop_spec (vs : List (PValue → FunctionResult)) :
    ∀ (check : Bool) (errs : List PValue) (v : PValue),
    _validate_field_loop check errs v vs =
      (check && (chainErrs v vs).isEmpty, errs ++ chainErrs v vs,
        chainVal v vs) := by
  induction vs with
  | nil =>
    intro check errs v
    simp [_validate_field_loop, chainErrs, chainVal]
  | cons u rest ih =>
    intro check errs v
    simp only [_validate_field_loop, chainErrs, chainVal]
    by_cases h : (u v).status ≠ RESULT_OK
    · simp [h, ih, List.append_assoc]
    · simp [h, ih]

theorem validate_field_eq (v : PValue)
    (vs : List (PValue → FunctionResult)) :
    _validate_field v vs =
      if (chainErrs v vs).isEmpty then ⟨RESULT_OK, chainVal v vs⟩
      else ⟨RESULT_ERR, .vList (chainErrs v vs)⟩ := by
  simp only [_validate_field, validate_field_loop_spec, Bool.true_and,
    List.nil_append]

theorem chainVal_append (vs₁ vs₂ : List (PValue → FunctionResult)) :
    ∀ v, chainVal v (vs₁ ++ vs₂) = chainVal (chainVal v vs₁) vs₂ := by
  induction vs₁ with
  | nil => intro v; simp [chainVal]
  | cons u rest ih =>
    intro v
    simp only [List.cons_append, chainVal]
    by_cases h : (u v).status ≠ RESULT_OK
    · simp [h, ih]
    · simp [h, ih]

theorem chainErrs_append (vs₁ vs₂ : List (PValue → FunctionResult)) :
    ∀ v, chainErrs v (vs₁ ++ vs₂) =
      chainErrs v vs₁ ++ chainErrs (chainVal v vs₁) vs₂ := by
  induction vs₁ with
  | nil => intro v; simp [chainErrs, chainVal]
  | cons u rest ih =>
    intro v
    simp only [List.cons_append, chainErrs, chainVal]
    by_cases h : (u v).status ≠ RESULT_OK
    · simp [h, ih]
    · simp [h, ih]

/-- C1 (amended): the claimed short-circuit does not exist.  When a prefix
`vs₁` of a field's chain already contains a failing unit (`chainErrs v vs₁ ≠
[]`), `SimpleValidator._validate_field` still runs every unit of the rest
`vs₂` of the chain: the field fails with the concatenated error list of ALL
failing units, the value having been threaded only through the succeeding
units.  Independently of any failure, every field of the schema is
processed and recorded by `SimpleValidator._va`. -/
theorem validate_field_no_short_circuit (v : PValue)
    (vs₁ vs₂ : List (PValue → FunctionResult)) (schema : Schema)
    (getter : String → PValue) (h : chainErrs v vs₁ ≠ []) :
    _validate_field v (vs₁ ++ vs₂) =
      ⟨RESULT_ERR, .vList (chainErrs v vs₁ ++
        chainErrs (chainVal v vs₁) vs₂)⟩ ∧
    ∀ p ∈ schema, p.1 ∈ keys (_va schema getter).results := by
  constructor
  · rw [validate_field_eq, chainErrs_append]
    have hne : ¬ (chainErrs v vs₁ ++
        chainErrs (chainVal v vs₁) vs₂).isEmpty = true := by
      simp [List.isEmpty_iff, h]
    rw [if_neg hne]
  · intro p hp
    exact va_foldl_records schema getter schema ValidationResult.empty p hp

/-- Witness for C1's amended theorem at a concrete chain: a chain of two
always-failing units records both errors (under the claimed short-circuit
the second unit would never have run). -/
theorem validate_field_no_short_circuit_witness :
    _validate_field PValue.vNone ([_just_fail] ++ [_just_fail]) =
      ⟨RESULT_ERR, .vList (chainErrs PValue.vNone [_just_fail] ++
        chainErrs (chainVal PValue.vNone [_just_fail]) [_just_fail])⟩ :=
  (validate_field_no_short_circuit PValue.vNone [_just_fail] [_just_fail]
    [] (fun _ => PValue.vNone) (by simp [chainErrs, _just_fail, RESULT_OK,
      RESULT_ERR, recErr])).1

/-- Counterexample to C1 as stated: with the chain `( _just_fail,
_just_fail )` on field `a`, the claim predicts that exactly the first
unit's error is recorded and the second unit is never invoked; the code
records BOTH units' errors for the field. -/
theorem validate_field_short_circuit_cex :
    (validate_dict [("a", PValue.vInt 1)]
        [("a", [_just_fail, _just_fail])]).errors =
      [("a", PValue.vList
        [PValue.vDict [("code", PValue.vInt 0), ("message", PValue.vStr "Fail")],
         PValue.vDict [("code", PValue.vInt 0),
           ("message", PValue.vStr "Fail")]])] ∧
    (validate_dict [("a", PValue.vInt 1)]
        [("a", [_just_fail, _just_fail])]).errors ≠
      [("a", PValue.vList
        [PValue.vDict [("code", PValue.vInt 0),
          ("message", PValue.vStr "Fail")]])] := by
  refine ⟨rfl, ?_⟩
  intro hcontra
  rw [show (validate_dict [("a", PValue.vInt 1)]
      [("a", [_just_fail, _just_fail])]).errors =
      [("a", PValue.vList
        [PValue.vDict [("code", PValue.vInt 0), ("message", PValue.vStr "Fail")],
         PValue.vDict [("code", PValue.vInt 0),
           ("message", PValue.vStr "Fail")]])] from rfl] at hcontra
  simp at hcontra

/-- C2 (amended): non-schema input keys are never passed through into the
result, for ANY accessor — hence both for plain-mapping and for structured
value-object input.  The loop of `SimpleValidator._va` iterates the
schema's keys only (its pass-through branch is unreachable), so every
result key is a schema key. -/
theorem va_never_passes_through_nonschema (schema : Schema)
    (getter : String → PValue) (data : List (String × PValue)) (k : String)
    (hk : ¬ k ∈ schema.map Prod.fst) :
    ¬ k ∈ keys ((_va schema getter).results) ∧
    ¬ k ∈ keys ((validate_dict data schema).results) := by
  have hgen : ∀ g : String → PValue,
      ¬ k ∈ keys ((_va schema g).results) := by
    intro g hmem
    rcases va_foldl_results_sub schema g schema ValidationResult.empty k hmem
      with h | h
    · simp [ValidationResult.empty, keys] at h
    · exact hk h
  exact ⟨hgen getter, hgen _⟩

/-- Witness for C2's amended theorem: schema `{'a': []}`, input
`{'c': 3}` — the non-schema key `'c'` appears in no result. -/
theorem va_never_passes_through_nonschema_witness :
    ¬ "c" ∈ keys ((_va [("a", [])] (fun _ => PValue.vNone)).results) ∧
    ¬ "c" ∈ keys ((validate_dict [("c", PValue.vInt 3)]
      [("a", [])]).results) :=
  va_never_passes_through_nonschema [("a", [])] (fun _ => PValue.vNone)
    [("c", PValue.vInt 3)] "c" (by simp)

/-- Counterexample to C2 as stated: plain-mapping input `{'a': 1, 'c': 3}`
against schema `{'a': []}` — the claim predicts the non-schema input key
`'c'` is passed through into the result; the code's result holds only
`'a'` (the repository's own test `test_required` likewise asserts
`'c' not in res1.result`). -/
theorem passthrough_cex :
    (validate_dict [("a", PValue.vInt 1), ("c", PValue.vInt 3)]
        [("a", [])]).results = [("a", PValue.vInt 1)] ∧
    ((validate_dict [("a", PValue.vInt 1), ("c", PValue.vInt 3)]
        [("a", [])]).results).lookup "c" = none :=
  ⟨rfl, rfl⟩

theorem any_truthy_keys_iff (l : List (String × PValue))
    (h : ∀ p ∈ l, p.1 ≠ "") :
    (l.any (fun p => p.1 != "") = true) ↔ l ≠ [] := by
  cases l with
  | nil => simp
  | cons p rest =>
    simp only [List.any_cons]
    constructor
    · intro _
      simp
    · intro _
      have hp := h p (by simp)
      simp [hp]

/-- C3: all-or-nothing commit for structured value-object input.
`SimpleValidator.validate` patches the object via `update_object` exactly
when no field recorded an error, and leaves the object untouched whenever
any field failed.  The hypothesis states Python well-formedness of a VO
schema: every schema key must be a readable attribute name for
`getattr(data, key)` not to raise, and attribute names are non-empty
identifiers — which is exactly what makes `has_errors()` (truthiness of
the error keys) coincide with "some field recorded an error". -/
theorem validate_vo_all_or_nothing (obj : VOObj) (schema : Schema)
    (hkeys : ∀ p ∈ schema, p.1 ≠ "") :
    ((validate_vo obj schema).2.errors ≠ [] →
      (validate_vo obj schema).1 = obj) ∧
    ((validate_vo obj schema).2.errors = [] →
      (validate_vo obj schema).1 =
        update_object obj (validate_vo obj schema).2.results) := by
  have herrkeys : ∀ p ∈ (_va schema
      (fun k => (obj.vals.lookup k).getD PValue.vNone)).errors,
      p.1 ≠ "" := by
    intro p hp
    have hmem : p.1 ∈ keys (_va schema
        (fun k => (obj.vals.lookup k).getD PValue.vNone)).errors :=
      List.mem_map.mpr ⟨p, hp, rfl⟩
    rcases va_foldl_errors_sub schema _ schema ValidationResult.empty p.1 hmem
      with h | h
    · simp [ValidationResult.empty, keys] at h
    · obtain ⟨q, hq, hq1⟩ := List.mem_map.mp h
      exact hq1 ▸ hkeys q hq
  have hiff := any_truthy_keys_iff _ herrkeys
  by_cases he : (_va schema
      (fun k => (obj.vals.lookup k).getD PValue.vNone)).errors = []
  · have hhe : has_errors (_va schema
        (fun k => (obj.vals.lookup k).getD PValue.vNone)) = false := by
      simp [has_errors, he]
    have hval : validate_vo obj schema =
        (update_object obj (_va schema
          (fun k => (obj.vals.lookup k).getD PValue.vNone)).results,
         _va schema (fun k => (obj.vals.lookup k).getD PValue.vNone)) := by
      simp [validate_vo, hhe]
    rw [hval]
    exact ⟨fun hne => absurd he hne, fun _ => rfl⟩
  · have hhe : has_errors (_va schema
        (fun k => (obj.vals.lookup k).getD PValue.vNone)) = true := by
      rw [has_errors]
      exact hiff.mpr he
    have hval : validate_vo obj schema =
        (obj, _va schema (fun k => (obj.vals.lookup k).getD PValue.vNone)) := by
      simp [validate_vo, hhe]
    rw [hval]
    exact ⟨fun _ => rfl, fun h0 => absurd h0 he⟩

/-- Witness for C3 at a concrete failing run: object with slot `a` holding
`"x"`, schema chaining an always-failing unit on `a` — the object is
returned unchanged. -/
theorem validate_vo_all_or_nothing_witness :
    (validate_vo ⟨["a"], [("a", PValue.vStr "x")]⟩
        [("a", [_just_fail])]).1 = ⟨["a"], [("a", PValue.vStr "x")]⟩ :=
  (validate_vo_all_or_nothing ⟨["a"], [("a", PValue.vStr "x")]⟩
      [("a", [_just_fail])] (by simp)).1
    (fun h => List.noConfusion h)

theorem applyOps_errors_sub (ops : List VROp) :
    ∀ (r : ValidationResult) (k : String),
      k ∈ keys ((applyOps ops r).errors) →
      k ∈ keys r.errors ∨ k ∈ ops.map VROp.key := by
  induction ops with
  | nil =>
    intro r k hk
    simp only [applyOps, List.foldl_nil] at hk
    exact Or.inl hk
  | cons op rest ih =>
    intro r k hk
    simp only [applyOps, List.foldl_cons] at hk
    rcases ih _ k hk with h | h
    · cases op with
      | field f v =>
        simp only [add_field] at h
        exact Or.inl h
      | fieldError f v e =>
        simp only [add_field_error, add_field] at h
        rcases mem_keys_of_dictSet _ _ _ _ h with rfl | h
        · simp [VROp.key]
        · exact Or.inl h
    · right
      simp [h]

/-- C9 (amended): `has_errors()` is `any(self._errors)` — truthiness of the
error dict KEYS, not non-emptiness of the dict.  The claimed invariant
`has_errors() = true ↔ errors ≠ {}` therefore holds for every sequence of
`add_field` / `add_field_error` calls whose field keys are truthy
(non-empty strings), not for arbitrary keys. -/
theorem has_errors_iff_truthy_keys (ops : List VROp)
    (h : ∀ op ∈ ops, op.key ≠ "") :
    has_errors (applyOps ops ValidationResult.empty) = true ↔
      (applyOps ops ValidationResult.empty).errors ≠ [] := by
  unfold has_errors
  apply any_truthy_keys_iff
  intro p hp
  have hmem : p.1 ∈ keys (applyOps ops ValidationResult.empty).errors :=
    List.mem_map.mpr ⟨p, hp, rfl⟩
  rcases applyOps_errors_sub ops ValidationResult.empty p.1 hmem with h0 | h0
  · simp [ValidationResult.empty, keys] at h0
  · obtain ⟨op, hop, hkey⟩ := List.mem_map.mp h0
    exact hkey ▸ h op hop

/-- Witness for C9's amended theorem on a one-call sequence with the truthy
key `'a'`. -/
theorem has_errors_iff_truthy_keys_witness :
    has_errors (applyOps [VROp.fieldError "a" PValue.vNone
      (PValue.vErr 0 "Fail")] ValidationResult.empty) = true ↔
    (applyOps [VROp.fieldError "a" PValue.vNone (PValue.vErr 0 "Fail")]
      ValidationResult.empty).errors ≠ [] :=
  has_errors_iff_truthy_keys
    [VROp.fieldError "a" PValue.vNone (PValue.vErr 0 "Fail")]
    (by simp [VROp.key])

/-- Counterexample to C9 as stated (for ARBITRARY field keys): after
`add_field_error('', value, error)` the errors dict is non-empty, yet
`has_errors()` — `any(self._errors)`, i.e. truthiness of the keys — is
false, because `bool('') == False`. -/
theorem has_errors_falsy_key_cex :
    (applyOps [VROp.fieldError "" PValue.vNone (PValue.vErr 0 "Fail")]
        ValidationResult.empty).errors = [("", PValue.vErr 0 "Fail")] ∧
    has_errors (applyOps [VROp.fieldError "" PValue.vNone
        (PValue.vErr 0 "Fail")] ValidationResult.empty) = false :=
  ⟨rfl, rfl⟩

/-- A character that `html.escape` leaves unchanged (none of `& < > " '`). -/
def cleanChar (c : Char) : Bool :=
  c != '&' && c != '<' && c != '>' && c != '"' && c != '\''

theorem escapeChar_clean (c : Char) (h : cleanChar c = true) :
    escapeChar c = [c] := by
  simp only [cleanChar, Bool.and_eq_true, bne_iff_ne, ne_eq] at h
  obtain ⟨⟨⟨⟨h1, h2⟩, h3⟩, h4⟩, h5⟩ := h
  simp [escapeChar, h1, h2, h3, h4, h5]

theorem htmlEscape_clean (l : List Char) (h : ∀ c ∈ l, cleanChar c = true) :
    htmlEscape l = l := by
  induction l with
  | nil => simp [htmlEscape]
  | cons c rest ih =>
    simp only [htmlEscape, List.map_cons, List.flatten_cons]
    rw [escapeChar_clean c (h c (by simp))]
    have := ih (fun d hd => h d (by simp [hd]))
    simp only [htmlEscape] at this
    simp [this]

theorem stripTagsFuel_clean (fuel : Nat) :
    ∀ l : List Char, l.length ≤ fuel → (∀ c ∈ l, c ≠ '<') →
      stripTagsFuel fuel l = l := by
  induction fuel with
  | zero => intro l _ _; simp [stripTagsFuel]
  | succ fuel ih =>
    intro l hlen h
    cases l with
    | nil => simp [stripTagsFuel]
    | cons c rest =>
      have hc : ¬ c = '<' := h c (by simp)
      have hlen2 : rest.length ≤ fuel := by
        simp only [List.length_cons] at hlen
        omega
      simp only [stripTagsFuel, if_neg hc]
      rw [ih rest hlen2 (fun d hd => h d (List.mem_cons_of_mem c hd))]

theorem remove_tags_clean (s : String)
    (h : ∀ c ∈ s.data, cleanChar c = true) : remove_tags s = s := by
  unfold remove_tags
  split
  · next he => exact he.symm
  · rw [stripTags, stripTagsFuel_clean s.data.length s.data le_rfl
      (fun c hc => by
        have := h c hc
        simp only [cleanChar, Bool.and_eq_true, bne_iff_ne, ne_eq] at this
        exact this.1.1.1.2)]
    rw [htmlEscape_clean s.data h]

/-- C10 (amended): re-validation is NOT idempotent in general — `strip_html`
re-escapes what `html.escape` already produced (see the counterexample on
`'&'`).  Idempotence of the `strip_html` string validator holds exactly on
outputs free of the HTML-escapable characters `& < > " '`: on such a value
the validator is the identity, so a second run returns the same accepted
value with no new error. -/
theorem strip_html_idempotent_on_clean (s : String)
    (h : ∀ c ∈ s.data, cleanChar c = true) :
    _val_string (PValue.vStr s) none none none none true =
      ⟨RESULT_OK, PValue.vStr s⟩ ∧
    _val_string
        ((_val_string (PValue.vStr s) none none none none true).result)
        none none none none true = ⟨RESULT_OK, PValue.vStr s⟩ := by
  have h1 : _val_string (PValue.vStr s) none none none none true =
      ⟨RESULT_OK, PValue.vStr s⟩ := by
    simp [_val_string, optNatTruthy, optStrTruthy, remove_tags_clean s h]
  refine ⟨h1, ?_⟩
  rw [h1]
  exact h1

/-- Witness for C10's amended theorem on the clean string `"abc"`. -/
theorem strip_html_idempotent_on_clean_witness :
    _val_string (PValue.vStr "abc") none none none none true =
      ⟨RESULT_OK, PValue.vStr "abc"⟩ ∧
    _val_string
        ((_val_string (PValue.vStr "abc") none none none none true).result)
        none none none none true = ⟨RESULT_OK, PValue.vStr "abc"⟩ :=
  strip_html_idempotent_on_clean "abc" (by decide)

/-- Counterexample to C10 as stated: schema `{'a': (Val.string(
strip_html=True),)}` on input `{'a': '&'}` — the first `validate` run is
error-free and accepts `'&amp;'`, but re-running `validate` on that
accepted output accepts `'&amp;amp;'`: `html.escape` escapes the ampersand
of the previous escape, so the accepted values differ. -/
theorem strip_html_not_idempotent_cex :
    (validate_dict [("a", PValue.vStr "&")]
        [("a", [Val_string_strip])]).errors = [] ∧
    (validate_dict [("a", PValue.vStr "&")]
        [("a", [Val_string_strip])]).results =
      [("a", PValue.vStr "&amp;")] ∧
    (validate_dict [("a", PValue.vStr "&amp;")]
        [("a", [Val_string_strip])]).results =
      [("a", PValue.vStr "&amp;amp;")] :=
  ⟨rfl, rfl, rfl⟩

/-- C5 (code defect, preserved): on a fully parseable list whose element
count exceeds `max_length`, `_val_list_of_items` does NOT return a failure
— it returns `FunctionResult(RESULT_OK, ValErrorEntry(_ERR_LIST_TOO_BIG,
...))`, a success-tagged result that smuggles the error payload as the
accepted value; consequently `_validate_field` records the field as
accepted with the `ValErrorEntry` as its value. -/
theorem list_too_long_returns_success :
    _val_list_of_items (PValue.vList [PValue.vInt 1, PValue.vInt 2,
        PValue.vInt 3]) parse_int_p none (some 2) =
      ⟨RESULT_OK, PValue.vErr 61
        "List too long. Expected maximum 2 elements"⟩ ∧
    (_val_list_of_items (PValue.vList [PValue.vInt 1, PValue.vInt 2,
        PValue.vInt 3]) parse_int_p none (some 2)).status ≠ RESULT_ERR ∧
    _validate_field (PValue.vList [PValue.vInt 1, PValue.vInt 2,
        PValue.vInt 3])
      [fun v => _val_list_of_items v parse_int_p none (some 2)] =
      ⟨RESULT_OK, PValue.vErr 61
        "List too long. Expected maximum 2 elements"⟩ :=
  ⟨rfl, by decide, rfl⟩

/-- C8 (code defect): on a structurally valid GIF payload (`GIF89a` header,
version bytes `9`, `a`, trailer `\x00;`) `val_gif` falls off the end of its
body and returns Python `None` instead of a success `FunctionResult`; the
dispatch inside `_ImageValidator.validate` then evaluates `result.status`
on `None` and crashes (`AttributeError`), modelled by the propagated
`none`.  By contrast `val_png` returns an explicit success Outcome on a
valid PNG. -/
theorem val_gif_success_not_outcome :
    val_gif [0x47, 0x49, 0x46, 0x38, 0x39, 0x61, 0x00, 0x3B] = none ∧
    image_check_dispatch val_gif
      [0x47, 0x49, 0x46, 0x38, 0x39, 0x61, 0x00, 0x3B] "gif" = none ∧
    val_png (_PNG_HEADER ++ _PNG_TRAILER) =
      some ⟨RESULT_OK, PValue.vNone⟩ :=
  ⟨rfl, rfl, rfl⟩

/-- C6: count semantics of `execute_with_count`.  An empty page yields
total 0 and no repository count; a non-empty page issues the real
repository count exactly when pagination is set and either the offset is
non-zero or the page length reaches the limit, and otherwise reuses the
in-memory page length as the total; the page itself is returned
unchanged. -/
theorem execute_with_count_spec (result : List PValue)
    (pagination : Option ListPagination) (repo_count : Int) :
    (result = [] →
      execute_with_count result pagination repo_count = (result, 0, false)) ∧
    (result ≠ [] →
      (((execute_with_count result pagination repo_count).2.2 = true) ↔
        ∃ p, pagination = some p ∧
          (p.offset ≠ 0 ∨ (result.length : Int) ≥ p.limit)) ∧
      ((execute_with_count result pagination repo_count).2.2 = true →
        (execute_with_count result pagination repo_count).2.1 = repo_count) ∧
      ((execute_with_count result pagination repo_count).2.2 = false →
        (execute_with_count result pagination repo_count).2.1 =
          (result.length : Int)) ∧
      (execute_with_count result pagination repo_count).1 = result) := by
  constructor
  · intro h
    subst h
    rfl
  · intro hne
    have hpos : ((result.length : Int) > 0) := by
      cases result with
      | nil => exact absurd rfl hne
      | cons a l => simp
    simp only [execute_with_count]
    rw [if_pos hpos]
    cases pagination with
    | none => simp
    | some p =>
      by_cases hc : p.offset ≠ 0 ∨ (result.length : Int) ≥ p.limit
      · simp [hc]
      · simp [hc]

/-- Witness for C6 on the spec's own example: a page of length 3 with
`limit=10, offset=0` reuses the in-memory length 3 as the total (no real
count call). -/
theorem execute_with_count_spec_witness :
    (execute_with_count [PValue.vInt 1, PValue.vInt 2, PValue.vInt 3]
        (some ⟨10, 0⟩) 99).2.1 =
      (([PValue.vInt 1, PValue.vInt 2, PValue.vInt 3] :
        List PValue).length : Int) :=
  ((execute_with_count_spec [PValue.vInt 1, PValue.vInt 2, PValue.vInt 3]
      (some ⟨10, 0⟩) 99).2 (by simp)).2.2.1 rfl

/-- C7: `with_pagination` normalization.  Under well-formed builder
parameters (`1 ≤ per_page ≤ max_per_page`): the resulting limit always
lies in `[1, max_per_page]`; an unrequested (falsy) limit resolves to
`per_page`; a requested integer limit is clamped by
`min(max_per_page, max(1, limit))`; the offset is always
`limit * (max(1, page) - 1)` over the normalized page; an absent, zero or
non-numeric page normalizes to page 1, hence offset 0.  The spec's two
concrete instances are included. -/
theorem with_pagination_spec (page limit : PyArg)
    (per_page max_per_page : Int) (h1 : 1 ≤ per_page)
    (h2 : per_page ≤ max_per_page) :
    (1 ≤ (with_pagination page limit per_page max_per_page).limit ∧
      (with_pagination page limit per_page max_per_page).limit ≤
        max_per_page) ∧
    (pyArgTruthy limit = false →
      (with_pagination page limit per_page max_per_page).limit = per_page) ∧
    (∀ n : Int, limit = PyArg.int n → n ≠ 0 →
      (with_pagination page limit per_page max_per_page).limit =
        min max_per_page (max 1 n)) ∧
    ((with_pagination page limit per_page max_per_page).offset =
      (with_pagination page limit per_page max_per_page).limit *
        (max 1 (normPage page) - 1)) ∧
    ((page = PyArg.none ∨ page = PyArg.int 0 ∨
        (∃ s, page = PyArg.str s ∧ pyStrToInt s = none)) →
      max 1 (normPage page) = 1 ∧
      (with_pagination page limit per_page max_per_page).offset = 0) ∧
    with_pagination (PyArg.int 0) PyArg.none 50 100 = ⟨50, 0⟩ ∧
    with_pagination (PyArg.int 3) (PyArg.int 500) 50 100 = ⟨100, 200⟩ := by
  have hmax1 : (1 : Int) ≤ max_per_page := le_trans h1 h2
  refine ⟨⟨?_, ?_⟩, ?_, ?_, ?_, ?_, ?_, ?_⟩
  · simp only [with_pagination]
    exact le_min hmax1 (le_max_left 1 _)
  · simp only [with_pagination]
    exact min_le_left _ _
  · intro hL
    simp only [with_pagination, normLimit, hL, Bool.not_false, if_pos]
    rw [max_eq_right h1, min_eq_right h2]
  · intro n hn hn0
    subst hn
    have hnl : normLimit (PyArg.int n) per_page = n := by
      simp [normLimit, pyArgTruthy, hn0]
    simp only [with_pagination, hnl]
  · rfl
  · rintro (rfl | rfl | ⟨s, rfl, hs⟩)
    · constructor
      · decide
      · show min max_per_page (max 1 (normLimit limit per_page)) *
          (max 1 (normPage PyArg.none) - 1) = 0
        rw [show max 1 (normPage PyArg.none) - 1 = (0 : Int) by decide,
          mul_zero]
    · constructor
      · decide
      · show min max_per_page (max 1 (normLimit limit per_page)) *
          (max 1 (normPage (PyArg.int 0)) - 1) = 0
        rw [show max 1 (normPage (PyArg.int 0)) - 1 = (0 : Int) by decide,
          mul_zero]
    · have hnp : max 1 (normPage (PyArg.str s)) = 1 := by
        by_cases he : s = ""
        · rw [show normPage (PyArg.str s) = 0 by
            simp [normPage, pyArgTruthy, he]]
          decide
        · rw [show normPage (PyArg.str s) = 1 by
            simp [normPage, pyArgTruthy, he, hs]]
          decide
      refine ⟨hnp, ?_⟩
      show min max_per_page (max 1 (normLimit limit per_page)) *
        (max 1 (normPage (PyArg.str s)) - 1) = 0
      rw [hnp]
      simp
  · decide
  · decide

/-- Witness for C7 at the spec's clamping example (`page=3, limit=500,
per_page=50, max_per_page=100`): the hypotheses `1 ≤ 50 ≤ 100` are
discharged concretely and the resulting limit lies in `[1, 100]`. -/
theorem with_pagination_spec_witness :
    1 ≤ (with_pagination (PyArg.int 3) (PyArg.int 500) 50 100).limit ∧
    (with_pagination (PyArg.int 3) (PyArg.int 500) 50 100).limit ≤ 100 :=
  (with_pagination_spec (PyArg.int 3) (PyArg.int 500) 50 100
    (by decide) (by decide)).1

theorem with_query_eq (c_filters : List (String × FieldFilter))
    (q : List (String × List String)) (fil : List (String × PValue)) :
    with_query c_filters q fil =
      if c_filters.isEmpty || q.isEmpty then fil
      else c_filters.foldl (_pf_step (fun f => (q.lookup f).isSome)
        (fun f => PValue.vStr (((q.lookup f).getD []).getLastD ""))
        true) fil := by
  unfold with_query _process_filters
  rw [Bool.not_not]

theorem pf_step_congr (q1 q2 : List (String × List String))
    (fil : List (String × PValue)) (p : String × FieldFilter)
    (h : p.2.from_query = true → q1.lookup p.1 = q2.lookup p.1) :
    _pf_step (fun f => (q1.lookup f).isSome)
      (fun f => PValue.vStr (((q1.lookup f).getD []).getLastD ""))
      true fil p =
    _pf_step (fun f => (q2.lookup f).isSome)
      (fun f => PValue.vStr (((q2.lookup f).getD []).getLastD ""))
      true fil p := by
  by_cases hf : p.2.from_query = true
  · have hl := h hf
    simp only [_pf_step, hl]
  · have hf2 : p.2.from_query = false := by
      cases hq : p.2.from_query
      · rfl
      · exact absurd hq hf
    simp [_pf_step, hf2]

theorem pf_foldl_congr (q1 q2 : List (String × List String))
    (l : List (String × FieldFilter)) :
    ∀ fil, (∀ p ∈ l, p.2.from_query = true →
        q1.lookup p.1 = q2.lookup p.1) →
      l.foldl (_pf_step (fun f => (q1.lookup f).isSome)
        (fun f => PValue.vStr (((q1.lookup f).getD []).getLastD ""))
        true) fil =
      l.foldl (_pf_step (fun f => (q2.lookup f).isSome)
        (fun f => PValue.vStr (((q2.lookup f).getD []).getLastD ""))
        true) fil := by
  induction l with
  | nil => intro fil _; rfl
  | cons p rest ih =>
    intro fil h
    simp only [List.foldl_cons]
    rw [pf_step_congr q1 q2 fil p (h p (by simp))]
    exact ih _ (fun r hr => h r (List.mem_cons_of_mem p hr))

theorem pf_foldl_noop (memData : String → Bool) (mapData : String → PValue)
    (l : List (String × FieldFilter)) :
    ∀ fil, (∀ p ∈ l, p.2.from_query = true → memData p.1 = false) →
      l.foldl (_pf_step memData mapData true) fil = fil := by
  induction l with
  | nil => intro fil _; rfl
  | cons p rest ih =>
    intro fil h
    simp only [List.foldl_cons]
    have hstep : _pf_step memData mapData true fil p = fil := by
      by_cases hf : p.2.from_query = true
      · have hm := h p (by simp) hf
        simp [_pf_step, hf, hm]
      · have hf2 : p.2.from_query = false := by
          cases hq : p.2.from_query
          · rfl
          · exact absurd hq hf
        simp [_pf_step, hf2]
    rw [hstep]
    exact ih _ (fun r hr => h r (List.mem_cons_of_mem p hr))

/-- C4: `with_query` is deterministic in the declared query surface and
default-deny.  For any declared `FieldFilter` map, two raw query-string
inputs that agree on every declared field having `from_query=True` (same
presence and same supplied value list) produce the same filtering map:
entries for `from_query=False` fields and undeclared input keys never
influence the result. -/
theorem with_query_default_deny (c_filters : List (String × FieldFilter))
    (q1 q2 : List (String × List String))
    (filtering : List (String × PValue))
    (h : ∀ p ∈ c_filters, p.2.from_query = true →
      q1.lookup p.1 = q2.lookup p.1) :
    with_query c_filters q1 filtering = with_query c_filters q2 filtering := by
  rw [with_query_eq, with_query_eq]
  by_cases hc : c_filters.isEmpty
  · simp [hc]
  · have hcf : c_filters.isEmpty = false := by simpa using hc
    simp only [hcf, Bool.false_or]
    by_cases hq1 : q1.isEmpty
    · have hq1nil : q1 = [] := List.isEmpty_iff.mp hq1
      by_cases hq2 : q2.isEmpty
      · simp [hq1, hq2]
      · have hq2f : q2.isEmpty = false := by simpa using hq2
        simp only [hq1, hq2f, if_true, Bool.false_eq_true, if_false]
        refine (pf_foldl_noop _ _ c_filters filtering ?_).symm
        intro p hp hfq
        have hl := h p hp hfq
        rw [hq1nil] at hl
        simp only [List.lookup_nil] at hl
        rw [← hl]
        rfl
    · have hq1f : q1.isEmpty = false := by simpa using hq1
      by_cases hq2 : q2.isEmpty
      · have hq2nil : q2 = [] := List.isEmpty_iff.mp hq2
        simp only [hq1f, hq2, if_true, Bool.false_eq_true, if_false]
        refine pf_foldl_noop _ _ c_filters filtering ?_
        intro p hp hfq
        have hl := h p hp hfq
        rw [hq2nil] at hl
        simp only [List.lookup_nil] at hl
        rw [hl]
        rfl
      · have hq2f : q2.isEmpty = false := by simpa using hq2
        simp only [hq1f, hq2f, Bool.false_eq_true, if_false]
        exact pf_foldl_congr q1 q2 c_filters filtering h

/-- Witness for C4: declared filters with the query-settable field `name`
and the programmatic-only field `admin` (`from_query=False`); the two raw
query inputs agree on `name` but differ on `admin` and on the undeclared
key `hack` — the produced filtering maps coincide. -/
theorem with_query_default_deny_witness :
    with_query
      [("name", ⟨FieldMappingSpec.direct "name", none, PValue.vNone, true⟩),
       ("admin", ⟨FieldMappingSpec.direct "is_admin", none, PValue.vNone,
         false⟩)]
      [("name", ["bob"])] [] =
    with_query
      [("name", ⟨FieldMappingSpec.direct "name", none, PValue.vNone, true⟩),
       ("admin", ⟨FieldMappingSpec.direct "is_admin", none, PValue.vNone,
         false⟩)]
      [("name", ["bob"]), ("admin", ["1"]), ("hack", ["x"])] [] :=
  with_query_default_deny _ _ _ _ (by decide)
